import Mathlib

/-!
Verification of the NYC poverty-data ingestion pipeline.

This file gives a shallow embedding of the ingestion core
(`src/ingestion/nyc_open_data_fetcher.py`, `census_fetcher.py`,
`parser.py`, `storage.py`, and the dataset transformers) and proves or
refutes the specified properties about it.  Machine-level concerns
(sockets, SQL engines, pandas frames) are modelled by explicit data:
a remote server becomes a function from request index to outcome, a
DataFrame becomes a list of rows, the database becomes a list of rows
plus a metadata ledger.
-/

namespace PovertyNYC

/-! ## Fetch protocol: `NYCOpenDataFetcher._make_request`

The retry loop of `_make_request` (nyc_open_data_fetcher.py lines
144-179).  One loop iteration issues exactly one HTTP POST, so the
remote side is modelled as a function from attempt index to the
outcome of that POST for the fixed request body. -/

/-- Outcome of a single HTTP POST as seen by `_make_request`:
a 2xx response, a 429 with a Retry-After header value, a non-2xx
status (raised by `raise_for_status`), a timeout, or another
transient network error. -/
inductive Outcome where
  | ok
  | rateLimited (retryAfter : Nat)
  | httpError
  | timeout
  | netError
deriving DecidableEq, Repr

/-- The body of the `for attempt in range(max_retries)` loop of
`_make_request`.  `rem` is the number of loop iterations left
(`maxRetries - attempt`); when it reaches 0 the loop falls through to
`raise RequestException("Max retries exceeded")`.  The accumulated
`sleeps` list records every `time.sleep` duration in order: the
Retry-After value on a 429, `2 ** attempt` on a retried timeout or
request error.  On success the result carries the index of the
successful attempt. -/
def runFrom (resp : Nat → Outcome) (maxRetries : Nat) :
    Nat → Nat → List Nat → Except String Nat × List Nat
  | 0, _, sleeps => (.error "Max retries exceeded", sleeps)
  | rem + 1, attempt, sleeps =>
    match resp attempt with
    | .ok => (.ok attempt, sleeps)
    | .rateLimited ra => runFrom resp maxRetries rem (attempt + 1) (sleeps ++ [ra])
    | .timeout =>
      if attempt < maxRetries - 1 then
        runFrom resp maxRetries rem (attempt + 1) (sleeps ++ [2 ^ attempt])
      else
        (.error "Timeout", sleeps)
    | .httpError =>
      if attempt < maxRetries - 1 then
        runFrom resp maxRetries rem (attempt + 1) (sleeps ++ [2 ^ attempt])
      else
        (.error "RequestException", sleeps)
    | .netError =>
      if attempt < maxRetries - 1 then
        runFrom resp maxRetries rem (attempt + 1) (sleeps ++ [2 ^ attempt])
      else
        (.error "RequestException", sleeps)

/-- `NYCOpenDataFetcher._make_request` with its default
`max_retries = 3`: run the attempt loop from attempt 0 with an empty
sleep log. -/
def make_request (resp : Nat → Outcome) (maxRetries : Nat := 3) :
    Except String Nat × List Nat :=
  runFrom resp maxRetries maxRetries 0 []

/-! ## Fetch protocol: `NYCOpenDataFetcher.fetch_from_api`

The pagination loop (nyc_open_data_fetcher.py lines 79-122).  The
server's data is a finite list of pages; requesting a page past the
end yields an empty record list, which is exactly what the loop's
`if not records: break` consumes. -/

/-- The `while True` pagination loop of `fetch_from_api`: request the
next page; an empty page stops without contributing; a short page
(fewer than `pageSize` records) contributes and stops; a full page
contributes and the loop advances `page_number`. -/
def fetchLoop {α : Type} (pages : List (List α)) (pageSize : Nat) : List α :=
  match pages with
  | [] => []
  | p :: rest =>
    if p.isEmpty then []
    else if p.length < pageSize then p
    else p ++ fetchLoop rest pageSize

/-- Number of page requests issued by the pagination loop of
`fetch_from_api` against a server holding `pages`: every loop
iteration issues exactly one request, including the final short or
empty page (and the empty response obtained when the server data is
exhausted exactly at a page boundary). -/
def requestCount {α : Type} (pages : List (List α)) (pageSize : Nat) : Nat :=
  match pages with
  | [] => 1
  | p :: rest =>
    if p.isEmpty then 1
    else if p.length < pageSize then 1
    else 1 + requestCount rest pageSize

/-! ## Fetch protocol: `CensusFetcher._fetch_by_chunks`

The chunked-filter fetch (census_fetcher.py lines 80-116):
`chunk_size = 50`, `for i in range(0, len(zip_codes), chunk_size)`,
one request per `zip_codes[i:i+chunk_size]`, abort on any failure,
concatenate all chunk results at the end. -/

/-- Structural helper for the chunk decomposition: the first argument
is recursion fuel; every step emits one chunk of at most 50 keys and
drops it, so fuel equal to the list length always suffices. -/
def chunksGo {α : Type} : Nat → List α → List (List α)
  | 0, _ => []
  | _ + 1, [] => []
  | n + 1, x :: xs => ((x :: xs).take 50) :: chunksGo n ((x :: xs).drop 50)

/-- The chunk decomposition performed by
`for i in range(0, len(zip_codes), 50): chunk = zip_codes[i:i+50]`:
consecutive slices of length 50 (the last one possibly shorter). -/
def chunksOf50 {α : Type} (l : List α) : List (List α) :=
  chunksGo l.length l

/-- The request loop of `_fetch_by_chunks` over an already chunked key
list: issue one request per chunk via `srv`; any failure propagates
(`raise`) and no partial batch is returned; otherwise the chunk
results are concatenated in chunk order (`pd.concat(all_data)`). -/
def fetchChunks {ρ : Type} (srv : List String → Except String (List ρ)) :
    List (List String) → Except String (List ρ)
  | [] => .ok []
  | c :: cs =>
    match srv c with
    | .error e => .error e
    | .ok d =>
      match fetchChunks srv cs with
      | .error e => .error e
      | .ok rest => .ok (d ++ rest)

/-- `CensusFetcher._fetch_by_chunks`: chunk the zip-code list with
chunk size 50 and run the request loop. -/
def fetch_by_chunks {ρ : Type} (srv : List String → Except String (List ρ))
    (zipCodes : List String) : Except String (List ρ) :=
  fetchChunks srv (chunksOf50 zipCodes)

/-- Number of HTTP requests `_fetch_by_chunks` issues over an already
chunked list: one per chunk up to and including the first failing
chunk (the loop body calls `_make_request` once per iteration and a
failure aborts the loop by raising). -/
def chunkRequests {ρ : Type} (srv : List String → Except String (List ρ)) :
    List (List String) → Nat
  | [] => 0
  | c :: cs =>
    match srv c with
    | .error _ => 1
    | .ok _ => 1 + chunkRequests srv cs

/-- Requests issued by `_fetch_by_chunks` on a zip-code list. -/
def requestsIssued {ρ : Type} (srv : List String → Except String (List ρ))
    (zipCodes : List String) : Nat :=
  chunkRequests srv (chunksOf50 zipCodes)

/-! ## Storage layer: `DataStorage.upsert_data`

storage.py lines 230-297.  A table is a list of rows; a row is the
list of its values positionally aligned with the table's column-name
list (the canonical batch shares the table's column set).  The
PostgreSQL `INSERT ... ON CONFLICT` statement built by `upsert_data`
is reified as a `Stmt`, and its server-side semantics (update every
non-key column of the conflicting row from the incoming `excluded`
values, or do nothing) is `execStmt`. -/

/-- A stored scalar: a number, a string, or SQL NULL. -/
inductive Value where
  | vnum (q : ℚ)
  | vstr (s : String)
  | vnull
deriving DecidableEq, Repr

/-- Projection of a row onto the key columns: the values at the
positions whose column name is in `keyCols`, in column order. -/
def proj (cols keyCols : List String) (row : List Value) : List Value :=
  (cols.zip row).filterMap (fun cv => if cv.1 ∈ keyCols then some cv.2 else none)

/-- The `ON CONFLICT DO UPDATE SET` assignment: every column in the
update set (the non-key columns) takes the incoming (`excluded`)
value, every other column keeps the stored value. -/
def mergeRow (cols keyCols : List String) (old new : List Value) : List Value :=
  (cols.zip (old.zip new)).map
    (fun x => if x.1 ∈ keyCols then x.2.1 else x.2.2)

/-- Whether the table holds a row whose key projection is `k`
(a conflict arbiter hit on the unique index over `keyCols`). -/
def hasKey (cols keyCols : List String) (t : List (List Value)) (k : List Value) : Bool :=
  t.any (fun row => proj cols keyCols row = k)

/-- The `INSERT ... ON CONFLICT` statement built by `upsert_data`:
either `on_conflict_do_update` with an explicit update column set, or
`on_conflict_do_nothing`. -/
inductive Stmt where
  | doUpdate (setCols : List String)
  | doNothing
deriving DecidableEq, Repr

/-- storage.py lines 269-284: `update_dict` maps every column of
`stmt.excluded` that is not a unique-key column to its incoming
value; when it is non-empty the statement is
`on_conflict_do_update(index_elements=unique_columns, set_=update_dict)`,
otherwise `on_conflict_do_nothing(index_elements=unique_columns)`. -/
def buildUpsertStmt (cols uniqueColumns : List String) : Stmt :=
  let updateCols := cols.filter (fun c => !(uniqueColumns.contains c))
  if updateCols.isEmpty then .doNothing else .doUpdate updateCols

/-- Server-side effect of one `VALUES` row of the statement: on a
conflict, `DO UPDATE` overwrites the non-key columns of the
conflicting row with the incoming values while `DO NOTHING` leaves
the table unchanged; with no conflict the row is inserted. -/
def execRow (cols keyCols : List String) (s : Stmt)
    (t : List (List Value)) (r : List Value) : List (List Value) :=
  if hasKey cols keyCols t (proj cols keyCols r) then
    match s with
    | .doUpdate _ =>
      t.map (fun row =>
        if proj cols keyCols row = proj cols keyCols r then mergeRow cols keyCols row r
        else row)
    | .doNothing => t
  else
    t ++ [r]

/-- Server-side effect of the whole multi-row statement: the `VALUES`
rows are processed in order. -/
def execStmt (cols keyCols : List String) (s : Stmt)
    (t : List (List Value)) (batch : List (List Value)) : List (List Value) :=
  batch.foldl (execRow cols keyCols s) t

/-- A database round trip performed by the storage layer: executing a
prepared statement, or reading the table back (never done by
`upsert_data` — the upsert is not a read-then-write). -/
inductive Action where
  | execStmt (s : Stmt)
  | readTable
deriving DecidableEq, Repr

/-- One ledger row of `dataset_metadata`: dataset id, record count,
status. -/
abbrev Ledger : Type := List (String × Nat × String)

/-- `DataStorage._update_metadata` (storage.py lines 299-334): upsert
one ledger row keyed by `dataset_id` with the written record count
and status `success`. -/
def update_metadata (ledger : Ledger) (datasetId : String) (n : Nat) : Ledger :=
  if ledger.any (fun e => e.1 = datasetId) then
    ledger.map (fun e => if e.1 = datasetId then (datasetId, n, "success") else e)
  else
    ledger ++ [(datasetId, n, "success")]

/-- Database state visible to `upsert_data`: the target table and the
`dataset_metadata` ledger. -/
structure IngestState where
  table : List (List Value)
  ledger : Ledger
deriving DecidableEq, Repr

/-- `DataStorage.upsert_data` (storage.py lines 230-297): convert the
DataFrame to records and return 0 immediately when the batch is empty
(no statement executed, no metadata update); otherwise build the
single `ON CONFLICT` statement, execute it, update the metadata
ledger, and return the batch length.  The third component logs every
database round trip against the target table. -/
def upsert_data (cols uniqueColumns : List String) (datasetId : String)
    (st : IngestState) (df : List (List Value)) :
    Nat × IngestState × List Action :=
  if df.isEmpty then (0, st, [])
  else
    let stmt := buildUpsertStmt cols uniqueColumns
    let table' := execStmt cols uniqueColumns stmt st.table df
    let ledger' := update_metadata st.ledger datasetId df.length
    (df.length, ⟨table', ledger'⟩, [Action.execStmt stmt])

/-! ## Pandas value model

Cell values as pandas sees them after `pd.to_numeric`: a finite
number, the float markers NaN / +inf / -inf, or the Python `None`
null sentinel used for database NULL. -/

/-- A pandas cell value. -/
inductive FVal where
  | num (q : ℚ)
  | nan
  | inf
  | ninf
  | null
deriving DecidableEq, Repr

/-- A raw source cell, abstracting string parsing: either it parses
to a finite number or it does not (empty, annotation text, missing). -/
inductive RawCell where
  | parsedAs (q : ℚ)
  | unparseable
deriving DecidableEq, Repr

/-- `pd.to_numeric(col, errors='coerce')`: parseable cells become
numbers, everything else becomes NaN. -/
def toNumeric : RawCell → FVal
  | .parsedAs q => .num q
  | .unparseable => .nan

/-- `df.loc[df[col] < 0, col] = np.nan`: the mask `v < 0` is true for
finite negatives and -inf, false for NaN (IEEE comparison) and for
non-negatives, so exactly those cells become NaN. -/
def negClean : FVal → FVal
  | .num q => if q < 0 then .nan else .num q
  | .ninf => .nan
  | v => v

/-- IEEE float division as used by `count / universe`. -/
def fdiv : FVal → FVal → FVal
  | .nan, _ => .nan
  | _, .nan => .nan
  | .null, _ => .nan
  | _, .null => .nan
  | .num a, .num b =>
    if b = 0 then (if a = 0 then .nan else if 0 < a then .inf else .ninf)
    else .num (a / b)
  | .inf, .num b => if 0 ≤ b then .inf else .ninf
  | .ninf, .num b => if 0 ≤ b then .ninf else .inf
  | .num _, .inf => .num 0
  | .num _, .ninf => .num 0
  | .inf, .inf => .nan
  | .inf, .ninf => .nan
  | .ninf, .inf => .nan
  | .ninf, .ninf => .nan

/-- Multiplication by 100 (`* 100`). -/
def fmul100 : FVal → FVal
  | .num q => .num (q * 100)
  | .nan => .nan
  | .inf => .inf
  | .ninf => .ninf
  | .null => .nan

/-- `.round(2)`: round a finite value to two decimals; NaN and the
infinities are unchanged. -/
def fround2 : FVal → FVal
  | .num q => .num (((round (q * 100) : ℤ) : ℚ) / 100)
  | v => v

/-- The replacement of `np.nan` by `None`: NaN becomes the null
sentinel, every other value is kept. -/
def replaceNanNull (v : FVal) : FVal :=
  if v = .nan then .null else v

/-! ## Transform/validate: `DataParser._validate_schema`

parser.py lines 77-115.  A frame is the transformed DataFrame:
a column-name list plus positional rows. -/

/-- Declared per-column validation schema (config `ColumnSchema`):
required flag and optional numeric bounds. -/
structure ColumnSchema where
  required : Bool := false
  min : Option ℚ := none
  max : Option ℚ := none
deriving DecidableEq, Repr

/-- Declared per-dataset validation rules (config
`ValidationConfig`). -/
structure ValidationConfig where
  allow_duplicates : Bool := true
  unique_keys : List String := []
deriving DecidableEq, Repr

/-- A transformed DataFrame: column names plus positionally aligned
rows. -/
structure Frame where
  cols : List String
  rows : List (List FVal)
deriving DecidableEq, Repr

/-- The values of one named column of a frame. -/
def colVals (df : Frame) (c : String) : List FVal :=
  match df.cols.indexOf? c with
  | none => []
  | some i => df.rows.map (fun r => r.getD i .null)

/-- The pandas mask `v < m` on one cell: true for finite values below
`m` and for -inf, false for NaN, null and +inf. -/
def ltMin (v : FVal) (m : ℚ) : Bool :=
  match v with
  | .num q => decide (q < m)
  | .ninf => true
  | _ => false

/-- The pandas mask `v > m` on one cell. -/
def gtMax (v : FVal) (m : ℚ) : Bool :=
  match v with
  | .num q => decide (m < q)
  | .inf => true
  | _ => false

/-- Key projection of one frame row onto the declared unique-key
columns (used by `df.duplicated(subset=unique_keys, keep=False)`). -/
def fkey (cols keyCols : List String) (row : List FVal) : List FVal :=
  (cols.zip row).filterMap (fun cv => if cv.1 ∈ keyCols then some cv.2 else none)

/-- `df.duplicated(subset=unique_keys, keep=False).sum()`: the number
of rows whose key combination occurs more than once in the frame. -/
def dupCount (df : Frame) (keyCols : List String) : Nat :=
  (df.rows.filter (fun r =>
    (df.rows.filter (fun s =>
      decide (fkey df.cols keyCols s = fkey df.cols keyCols r))).length ≥ 2)).length

/-- The per-column loop of `_validate_schema` (parser.py lines
86-105): a required column missing from the frame raises
`ValueError`; a present column with declared bounds contributes a
warning per non-zero out-of-range count; a missing optional column
contributes nothing. -/
def validateCols : List (String × ColumnSchema) → Frame → Except String (List String)
  | [], _ => .ok []
  | (c, cs) :: rest, df =>
    if cs.required ∧ c ∉ df.cols then
      .error ("Required column " ++ c ++ " is missing")
    else
      let wsMin :=
        match cs.min with
        | some m =>
          if c ∈ df.cols ∧ ((colVals df c).filter (fun v => ltMin v m)).length > 0
          then [c ++ " below minimum"] else []
        | none => []
      let wsMax :=
        match cs.max with
        | some m =>
          if c ∈ df.cols ∧ ((colVals df c).filter (fun v => gtMax v m)).length > 0
          then [c ++ " above maximum"] else []
        | none => []
      match validateCols rest df with
      | .error e => .error e
      | .ok ws => .ok (wsMin ++ wsMax ++ ws)

/-- `DataParser._validate_schema` (parser.py lines 77-115): run the
per-column checks, then the residual-duplicate check, returning the
accumulated warnings or the raised error. -/
def validate_schema (schemaCols : List (String × ColumnSchema))
    (validation : ValidationConfig) (df : Frame) : Except String (List String) :=
  match validateCols schemaCols df with
  | .error e => .error e
  | .ok ws =>
    let wsDup :=
      if ¬ validation.allow_duplicates ∧ validation.unique_keys ≠ [] ∧
          dupCount df validation.unique_keys > 0
      then ["duplicate records"] else []
    .ok (ws ++ wsDup)

/-- The tail of `DataParser.parse` (parser.py lines 69-71): validate
the transformed frame and, when no error is raised, hand that same
frame back to the caller together with the warnings. -/
def parse_validate (schemaCols : List (String × ColumnSchema))
    (validation : ValidationConfig) (df : Frame) :
    Except String (Frame × List String) :=
  match validate_schema schemaCols validation df with
  | .error e => .error e
  | .ok ws => .ok (df, ws)

/-! ## Dataset transformers

`datasets/food_supply_gap/transformer.py` and
`datasets/census_acs/transformer.py`. -/

/-- The duplicate-resolution step of `FoodSupplyGapTransformer.transform`
(food_supply_gap/transformer.py line 75):
`df.drop_duplicates(subset=unique_keys, keep='last')` — keep, in
original order, the last occurrence of every key. -/
def drop_duplicates_last {α κ : Type} [DecidableEq κ] (key : α → κ) :
    List α → List α
  | [] => []
  | r :: rs =>
    if rs.any (fun x => decide (key x = key r)) then drop_duplicates_last key rs
    else r :: drop_duplicates_last key rs

/-- A raw census row as handed to `CensusACSTransformer.transform`
after the positional header zip of `CensusFetcher._make_request` and
the column renames: the geography value plus the three raw numeric
cells. -/
structure CRow where
  zip : String
  income : RawCell
  univ : RawCell
  count : RawCell
deriving DecidableEq, Repr

/-- A canonical census row after `CensusACSTransformer.transform`.
The provenance columns attached by `BaseDatasetTransformer.add_metadata`
are omitted; that helper is not among the sources and per the spec it
only attaches a dataset identifier and an ingestion timestamp to every
row, dropping none. -/
structure COut where
  zip : String
  year : Int
  income : FVal
  univ : FVal
  count : FVal
  rate : FVal
deriving DecidableEq, Repr

/-- The numeric-column cleaning of `CensusACSTransformer.transform`
(census_acs/transformer.py lines 24-33) applied to one cell:
`pd.to_numeric(errors='coerce')` then the negative-sentinel mask. -/
def cleanNum (c : RawCell) : FVal :=
  negClean (toNumeric c)

/-- The derived-rate computation (census_acs/transformer.py lines
36-38) on one row: `(count / universe) * 100`, rounded to two
decimals. -/
def rateOf (count univ : FVal) : FVal :=
  fround2 (fmul100 (fdiv count univ))

/-- `CensusACSTransformer.transform` (census_acs/transformer.py lines
10-52) on the columns relevant to the claims.  Every step of the
source (rename, `pd.to_numeric`, the negative mask, the rate, the
NaN-to-None replacement, the year column) is elementwise and
row-aligned, so the columnwise pandas program is this rowwise map; in
particular no row is ever dropped or deduplicated. -/
def census_transform (year : Int) (rows : List CRow) : List COut :=
  rows.map (fun r =>
    let income := cleanNum r.income
    let univ := cleanNum r.univ
    let count := cleanNum r.count
    { zip := r.zip
      year := year
      income := replaceNanNull income
      univ := replaceNanNull univ
      count := replaceNanNull count
      rate := replaceNanNull (rateOf count univ) })

/-- Modelled from the spec: the per-dataset YAML configuration files
are not among the sources; the spec's end-to-end scenario declares
the census dataset's unique key as `(year, zip_code)`, i.e. the
dataset disallows duplicate keys. -/
def censusValidation : ValidationConfig :=
  { allow_duplicates := false, unique_keys := ["year", "zip_code"] }

/-! ## Theorems: retry and rate-limit handling (`_make_request`) -/

/-- C2 (counterexample): the claim says any number of consecutive 429
responses never exhausts the retry budget; but the 429 branch
`continue`s inside `for attempt in range(max_retries)`, so each 429
consumes one attempt, and three consecutive 429s make `_make_request`
raise "Max retries exceeded" after sleeping the Retry-After duration
three times. -/
theorem C2_counterexample :
    make_request (fun _ => .rateLimited 60) 3 =
      (.error "Max retries exceeded", [60, 60, 60]) := by
  rfl

/-- C2 (amended): on HTTP 429 the fetcher sleeps exactly the
Retry-After duration read from the response and then retries the same
request (the page counter lives in `fetch_from_api`, outside the
retry loop, so the page is not advanced); however each 429 consumes
one attempt of the `max_retries = 3` budget, so a single 429 followed
by a success succeeds after sleeping the Retry-After value once,
while three consecutive 429s exhaust the budget and raise the
terminal "Max retries exceeded" error. -/
theorem C2_rate_limit_retry (resp : Nat → Outcome) (ra : Nat) :
    (resp 0 = .rateLimited ra → resp 1 = .ok →
      make_request resp 3 = (.ok 1, [ra])) ∧
    ((∀ i, i < 3 → resp i = .rateLimited ra) →
      make_request resp 3 = (.error "Max retries exceeded", [ra, ra, ra])) := by
  constructor
  · intro h0 h1
    simp [make_request, runFrom, h0, h1]
  · intro h
    have h0 := h 0 (by omega)
    have h1 := h 1 (by omega)
    have h2 := h 2 (by omega)
    simp [make_request, runFrom, h0, h1, h2]

/-- C2 witness for the amended theorem: a concrete 429-then-success
server and a concrete always-429 server. -/
theorem C2_rate_limit_retry_witness :
    make_request (fun i => if i = 0 then .rateLimited 60 else .ok) 3 = (.ok 1, [60]) ∧
    make_request (fun _ => .rateLimited 7) 3 =
      (.error "Max retries exceeded", [7, 7, 7]) := by
  constructor
  · exact (C2_rate_limit_retry (fun i => if i = 0 then .rateLimited 60 else .ok) 60).1
      rfl rfl
  · exact (C2_rate_limit_retry (fun _ => .rateLimited 7) 7).2 (fun i _ => rfl)

/-- C3 (counterexample): the claim says three consecutive timeouts
followed by a success still succeed; but with the fixed
`max_retries = 3` the third consecutive timeout hits
`attempt < max_retries - 1` being false and re-raises, so the fetch
fails after backoff sleeps of 1 and 2 seconds. -/
theorem C3_counterexample :
    make_request (fun i => if i < 3 then .timeout else .ok) 3 =
      (.error "Timeout", [1, 2]) := by
  rfl

/-- C3 (amended): with the fixed maximum attempt count 3, a run of
two consecutive timeouts followed by a success returns that success,
the backoff delay is `2 ** attempt` so it doubles and the wait
between the first and second retry strictly increases (1 < 2); a
third consecutive timeout exhausts the attempt budget and raises the
terminal fetch error. -/
theorem C3_timeout_backoff (resp res2 : Nat → Outcome) :
    (resp 0 = .timeout → resp 1 = .timeout → resp 2 = .ok →
      make_request resp 3 = (.ok 2, [2 ^ 0, 2 ^ 1]) ∧ 2 ^ 0 < 2 ^ 1) ∧
    ((∀ i, i < 3 → res2 i = .timeout) →
      make_request res2 3 = (.error "Timeout", [2 ^ 0, 2 ^ 1])) := by
  constructor
  · intro h0 h1 h2
    refine ⟨?_, by omega⟩
    simp [make_request, runFrom, h0, h1, h2]
  · intro h
    have h0 := h 0 (by omega)
    have h1 := h 1 (by omega)
    have h2 := h 2 (by omega)
    simp [make_request, runFrom, h0, h1, h2]

/-- C3 witness for the amended theorem: a concrete
two-timeouts-then-success server and a concrete always-timeout
server. -/
theorem C3_timeout_backoff_witness :
    (make_request (fun i => if i < 2 then .timeout else .ok) 3 = (.ok 2, [2 ^ 0, 2 ^ 1]) ∧
      2 ^ 0 < 2 ^ 1) ∧
    make_request (fun _ => .timeout) 3 = (.error "Timeout", [2 ^ 0, 2 ^ 1]) := by
  constructor
  · exact (C3_timeout_backoff (fun i => if i < 2 then .timeout else .ok) (fun _ => .timeout)).1
      rfl rfl rfl
  · exact (C3_timeout_backoff (fun i => if i < 2 then .timeout else .ok) (fun _ => .timeout)).2
      (fun i _ => rfl)

/-! ## Theorems: pagination (`fetch_from_api`) -/

/-- C4: against a server whose pages are `good ++ bad :: rest` where
every page in `good` is exactly full and `bad` is the first short (or
empty) page, the pagination loop returns the concatenation of the
pages actually returned (`good.flatten ++ bad`), issues exactly
`good.length + 1` requests — none after the short page — and the
batch size is the sum of the sizes of the returned pages. -/
theorem C4_pagination {α : Type} (good : List (List α)) (bad : List α)
    (rest : List (List α)) (pageSize : Nat) (hps : 0 < pageSize)
    (hgood : ∀ p ∈ good, p.length = pageSize) (hbad : bad.length < pageSize) :
    fetchLoop (good ++ bad :: rest) pageSize = good.flatten ++ bad ∧
    requestCount (good ++ bad :: rest) pageSize = good.length + 1 ∧
    (fetchLoop (good ++ bad :: rest) pageSize).length =
      (good.map List.length).sum + bad.length := by
  have main : fetchLoop (good ++ bad :: rest) pageSize = good.flatten ++ bad ∧
      requestCount (good ++ bad :: rest) pageSize = good.length + 1 := by
    induction good with
    | nil =>
      constructor
      · by_cases hb : bad.isEmpty
        · simp [fetchLoop, hb, List.isEmpty_iff.1 hb]
        · simp [fetchLoop, hb, hbad]
      · by_cases hb : bad.isEmpty
        · simp [requestCount, hb]
        · simp [requestCount, hb, hbad]
    | cons p good ih =>
      have hp : p.length = pageSize := hgood p (by simp)
      have hne : ¬ p.isEmpty := by
        cases p with
        | nil => simp at hp; omega
        | cons a l => simp
      have hnotshort : ¬ p.length < pageSize := by omega
      have ih' := ih (fun q hq => hgood q (by simp [hq]))
      constructor
      · simp only [List.cons_append, fetchLoop, hne, hnotshort, if_false,
          Bool.false_eq_true, ite_false, List.append_eq]
        rw [ih'.1]
        simp
      · simp only [List.cons_append, requestCount, hne, hnotshort, if_false,
          Bool.false_eq_true, ite_false, List.append_eq]
        rw [ih'.2]
        simp [Nat.add_comm]
  refine ⟨main.1, main.2, ?_⟩
  rw [main.1]
  simp [List.length_flatten]

/-- C4 witness: a concrete server with two full pages of size 2, a
short page, and a page that must never be requested. -/
theorem C4_pagination_witness :
    fetchLoop [[1, 2], [3, 4], [5], [9, 9]] 2 = [[1, 2], [3, 4]].flatten ++ [5] ∧
    requestCount [[1, 2], [3, 4], [5], [9, 9]] 2 = [[1, 2], [3, 4]].length + 1 ∧
    (fetchLoop [[1, 2], [3, 4], [5], [9, 9]] 2).length =
      ([[1, 2], [3, 4]].map List.length).sum + [5].length :=
  C4_pagination [[1, 2], [3, 4]] [5] [[9, 9]] 2 (by omega)
    (by intro p hp; simp at hp; rcases hp with h | h <;> simp [h]) (by simp)

/-! ## Theorems: chunked fetch (`_fetch_by_chunks`) -/

/-- With enough fuel, the emitted chunks reassemble the input list. -/
theorem chunksGo_flatten {α : Type} :
    ∀ (n : Nat) (l : List α), l.length ≤ n → (chunksGo n l).flatten = l := by
  intro n
  induction n with
  | zero =>
    intro l h
    have hl : l = [] := List.eq_nil_of_length_eq_zero (by omega)
    subst hl
    rfl
  | succ n ih =>
    intro l h
    cases l with
    | nil => rfl
    | cons x xs =>
      simp only [chunksGo, List.flatten_cons]
      rw [ih ((x :: xs).drop 50)
        (by simp only [List.length_cons] at h; simp only [List.length_drop, List.length_cons]; omega)]
      exact List.take_append_drop 50 (x :: xs)

/-- The chunks reassemble the key list: they are consecutive
sub-lists in input order. -/
theorem chunksOf50_flatten {α : Type} (l : List α) : (chunksOf50 l).flatten = l :=
  chunksGo_flatten l.length l le_rfl

/-- With enough fuel, the number of emitted chunks is `ceil(N / 50)`. -/
theorem chunksGo_length {α : Type} :
    ∀ (n : Nat) (l : List α), l.length ≤ n →
      (chunksGo n l).length = (l.length + 49) / 50 := by
  intro n
  induction n with
  | zero =>
    intro l h
    have hl : l = [] := List.eq_nil_of_length_eq_zero (by omega)
    subst hl
    simp [chunksGo]
  | succ n ih =>
    intro l h
    cases l with
    | nil => simp [chunksGo]
    | cons x xs =>
      simp only [chunksGo, List.length_cons]
      rw [ih ((x :: xs).drop 50)
        (by simp only [List.length_cons] at h; simp only [List.length_drop, List.length_cons]; omega)]
      simp only [List.length_drop, List.length_cons]
      rcases Nat.le_total (xs.length + 1) 50 with hle | hle
      · have h1 : xs.length + 1 - 50 = 0 := by omega
        rw [h1]
        have h2 : (xs.length + 1 + 49) / 50 = 1 :=
          Nat.div_eq_of_lt_le (by omega) (by omega)
        rw [h2]
      · have h2 : xs.length + 1 + 49 = (xs.length + 1 - 50 + 49) + 1 * 50 := by omega
        rw [h2, Nat.add_mul_div_right _ _ (by omega : (0:Nat) < 50)]

/-- There are exactly `ceil(N / 50)` chunks. -/
theorem chunksOf50_length {α : Type} (l : List α) :
    (chunksOf50 l).length = (l.length + 49) / 50 :=
  chunksGo_length l.length l le_rfl

/-- When every chunk request succeeds, the chunk loop returns the
concatenation of the chunk results in chunk order. -/
theorem fetchChunks_ok {ρ : Type} (srv : List String → Except String (List ρ))
    (data : List String → List ρ) :
    ∀ l : List (List String), (∀ c ∈ l, srv c = .ok (data c)) →
      fetchChunks srv l = .ok ((l.map data).flatten) := by
  intro l
  induction l with
  | nil => intro _; rfl
  | cons c cs ih =>
    intro h
    have hc := h c (by simp)
    have ihe := ih (fun d hd => h d (by simp [hd]))
    simp [fetchChunks, hc, ihe]

/-- When every chunk request succeeds, one request is issued per
chunk. -/
theorem chunkRequests_ok {ρ : Type} (srv : List String → Except String (List ρ))
    (data : List String → List ρ) :
    ∀ l : List (List String), (∀ c ∈ l, srv c = .ok (data c)) →
      chunkRequests srv l = l.length := by
  intro l
  induction l with
  | nil => intro _; rfl
  | cons c cs ih =>
    intro h
    have hc := h c (by simp)
    have ihe := ih (fun d hd => h d (by simp [hd]))
    simp [chunkRequests, hc, ihe, Nat.add_comm]

/-- A failing chunk anywhere makes the whole chunk loop fail. -/
theorem fetchChunks_error {ρ : Type} (srv : List String → Except String (List ρ)) :
    ∀ l : List (List String), (∃ c ∈ l, ∃ e, srv c = .error e) →
      ∃ e2, fetchChunks srv l = .error e2 := by
  intro l
  induction l with
  | nil => rintro ⟨c, hc, _⟩; simp at hc
  | cons c cs ih =>
    rintro ⟨d, hd, e, he⟩
    rcases List.mem_cons.1 hd with rfl | hd2
    · exact ⟨e, by simp [fetchChunks, he]⟩
    · cases hsrv : srv c with
      | error e1 => exact ⟨e1, by simp [fetchChunks, hsrv]⟩
      | ok v =>
        rcases ih ⟨d, hd2, e, he⟩ with ⟨e2, he2⟩
        exact ⟨e2, by simp [fetchChunks, hsrv, he2]⟩

/-- C7: a chunked-filter fetch over a key list of length N with chunk
size 50 decomposes the keys into exactly `ceil(N / 50)` consecutive
chunks in input order; when every chunk request succeeds it issues
exactly that many requests and returns the concatenation of the
chunk results in chunk order; and when any chunk request fails the
whole fetch fails with an error (no partial batch is returned). -/
theorem C7_chunked_fetch {ρ : Type} (srv : List String → Except String (List ρ))
    (zipCodes : List String) (data : List String → List ρ) :
    (chunksOf50 zipCodes).length = (zipCodes.length + 49) / 50 ∧
    (chunksOf50 zipCodes).flatten = zipCodes ∧
    ((∀ c ∈ chunksOf50 zipCodes, srv c = .ok (data c)) →
      fetch_by_chunks srv zipCodes = .ok (((chunksOf50 zipCodes).map data).flatten) ∧
      requestsIssued srv zipCodes = (zipCodes.length + 49) / 50) ∧
    ((∃ c ∈ chunksOf50 zipCodes, ∃ e, srv c = .error e) →
      ∃ e2, fetch_by_chunks srv zipCodes = .error e2) := by
  refine ⟨chunksOf50_length zipCodes, chunksOf50_flatten zipCodes, ?_, ?_⟩
  · intro h
    refine ⟨fetchChunks_ok srv data _ h, ?_⟩
    rw [requestsIssued, chunkRequests_ok srv data _ h, chunksOf50_length]
  · intro h
    exact fetchChunks_error srv _ h

/-- C7 witness: a concrete echo server over three zip codes (one
chunk) for the success conjunct, and a failing server for the
failure conjunct. -/
theorem C7_chunked_fetch_witness :
    fetch_by_chunks (fun c : List String => (.ok c : Except String (List String)))
      ["10001", "10002", "10003"] =
      .ok (((chunksOf50 ["10001", "10002", "10003"]).map id).flatten) ∧
    requestsIssued (fun c : List String => (.ok c : Except String (List String)))
      ["10001", "10002", "10003"] =
      ((["10001", "10002", "10003"] : List String).length + 49) / 50 ∧
    ∃ e2, fetch_by_chunks
      (fun _ : List String => (.error "boom" : Except String (List String))) ["10001"] =
        .error e2 := by
  have h1 := (C7_chunked_fetch (fun c : List String => (.ok c : Except String (List String)))
    ["10001", "10002", "10003"] id).2.2.1 (fun c _ => rfl)
  have h2 := (C7_chunked_fetch (fun _ : List String => (.error "boom" : Except String (List String)))
    ["10001"] (fun _ => [])).2.2.2 ⟨["10001"], by decide, "boom", rfl⟩
  exact ⟨h1.1, h1.2, h2⟩

/-! ## Theorems: validation (`_validate_schema`) -/

/-- When every required column is present, the per-column loop never
raises. -/
theorem validateCols_ok (df : Frame) :
    ∀ schemaCols : List (String × ColumnSchema),
      (∀ p ∈ schemaCols, p.2.required = true → p.1 ∈ df.cols) →
      ∃ ws, validateCols schemaCols df = .ok ws := by
  intro schemaCols
  induction schemaCols with
  | nil => intro _; exact ⟨[], rfl⟩
  | cons p rest ih =>
    intro h
    obtain ⟨c, cs⟩ := p
    have hok : ¬ (cs.required ∧ c ∉ df.cols) := by
      rintro ⟨hreq, hmem⟩
      exact hmem (h (c, cs) (by simp) (by simpa using hreq))
    obtain ⟨ws, hws⟩ := ih (fun q hq hr => h q (by simp [hq]) hr)
    exact ⟨_, by simp only [validateCols, hws]; rw [if_neg hok]⟩

/-- A missing required column makes the per-column loop raise. -/
theorem validateCols_error (df : Frame) :
    ∀ schemaCols : List (String × ColumnSchema),
      (∃ p ∈ schemaCols, p.2.required = true ∧ p.1 ∉ df.cols) →
      ∃ e, validateCols schemaCols df = .error e := by
  intro schemaCols
  induction schemaCols with
  | nil => rintro ⟨p, hp, _⟩; simp at hp
  | cons q rest ih =>
    rintro ⟨p, hp, hreq, hmem⟩
    obtain ⟨c, cs⟩ := q
    by_cases hcase : cs.required ∧ c ∉ df.cols
    · exact ⟨_, by simp only [validateCols]; rw [if_pos hcase]⟩
    · have hin : p ∈ rest := by
        rcases List.mem_cons.1 hp with rfl | h2
        · exact absurd ⟨by simpa using hreq, hmem⟩ hcase
        · exact h2
      obtain ⟨e, he⟩ := ih ⟨p, hin, hreq, hmem⟩
      exact ⟨e, by simp only [validateCols, he]; rw [if_neg hcase]⟩

/-- C1 (counterexample): the claim says validation never raises and
reports missing columns as warnings; but `_validate_schema` raises
`ValueError` for a required column absent from the frame
(parser.py line 89), blocking storage for that ingestion. -/
theorem C1_counterexample :
    validate_schema [("year", { required := true })] {} ⟨["zip_code"], [[.num 1]]⟩ =
      .error "Required column year is missing" := by
  rfl

/-- C1 (amended): validation never mutates the batch — on success
`parse` hands the very frame it validated back to the caller — and
out-of-range values and residual duplicate keys only produce
warnings, never an error; however a missing REQUIRED column raises
(and so blocks storage), while validation is guaranteed not to raise
exactly when every required column is present; missing optional
columns are silently skipped. -/
theorem C1_validate_warnings (schemaCols : List (String × ColumnSchema))
    (validation : ValidationConfig) (df : Frame) :
    ((∀ p ∈ schemaCols, p.2.required = true → p.1 ∈ df.cols) →
      ∃ ws, parse_validate schemaCols validation df = .ok (df, ws)) ∧
    ((∃ p ∈ schemaCols, p.2.required = true ∧ p.1 ∉ df.cols) →
      ∃ e, validate_schema schemaCols validation df = .error e) := by
  constructor
  · intro h
    obtain ⟨ws, hws⟩ := validateCols_ok df schemaCols h
    exact ⟨_, by simp only [parse_validate, validate_schema, hws]; rfl⟩
  · intro h
    obtain ⟨e, he⟩ := validateCols_error df schemaCols h
    refine ⟨e, ?_⟩
    simp only [validate_schema, he]

/-- C1 witness: a frame with an out-of-range value and a duplicate
key pair passes validation with the frame returned unchanged, while a
frame missing the required column raises. -/
theorem C1_validate_warnings_witness :
    (∃ ws, parse_validate
        [("year", { required := true, min := some 2000 })]
        { allow_duplicates := false, unique_keys := ["year"] }
        ⟨["year"], [[.num 1999], [.num 1999]]⟩ =
      .ok (⟨["year"], [[.num 1999], [.num 1999]]⟩, ws)) ∧
    (∃ e, validate_schema
        [("year", { required := true, min := some 2000 })]
        { allow_duplicates := false, unique_keys := ["year"] }
        ⟨["zip_code"], [[.num 1]]⟩ = .error e) := by
  constructor
  · exact (C1_validate_warnings
      [("year", { required := true, min := some 2000 })]
      { allow_duplicates := false, unique_keys := ["year"] }
      ⟨["year"], [[.num 1999], [.num 1999]]⟩).1
      (by intro p hp _; simp at hp; simp [hp])
  · exact (C1_validate_warnings
      [("year", { required := true, min := some 2000 })]
      { allow_duplicates := false, unique_keys := ["year"] }
      ⟨["zip_code"], [[.num 1]]⟩).2
      ⟨("year", { required := true, min := some 2000 }), by simp, rfl, by decide⟩

/-! ## Theorems: storage (`upsert_data`) -/

/-- C10: calling `upsert_data` with an empty canonical batch returns
a written-row count of 0, executes no statement against the target
table, and leaves the whole database state — the table and the
ingestion-metadata ledger — unchanged (`if not records: return 0`
fires before the statement is built and before `_update_metadata`). -/
theorem C10_upsert_empty_batch (cols uniqueColumns : List String)
    (datasetId : String) (st : IngestState) :
    upsert_data cols uniqueColumns datasetId st [] = (0, st, []) :=
  rfl

/-- C5: with a non-empty declared unique-key column set, the single
`ON CONFLICT` statement built by `upsert_data` (a) is
`DO UPDATE SET` over exactly the non-key columns whenever some
non-key column exists, so on a conflict every non-key column of the
conflicting row is overwritten with the incoming value; (b) is
`DO NOTHING` when the key set covers all columns, so a conflict then
leaves the table unchanged; and (c) the whole batch is written by
exactly one statement execution, with no read of the target table
(not a read-then-write round trip). -/
theorem C5_upsert_on_conflict (cols keys : List String) (datasetId : String)
    (st : IngestState) (df : List (List Value)) (t : List (List Value))
    (r : List Value) :
    ((∃ c ∈ cols, c ∉ keys) →
      buildUpsertStmt cols keys =
        .doUpdate (cols.filter (fun c => !(keys.contains c)))) ∧
    ((∃ c ∈ cols, c ∉ keys) → hasKey cols keys t (proj cols keys r) = true →
      execStmt cols keys (buildUpsertStmt cols keys) t [r] =
        t.map (fun row =>
          if proj cols keys row = proj cols keys r then mergeRow cols keys row r
          else row)) ∧
    ((∀ c ∈ cols, c ∈ keys) → buildUpsertStmt cols keys = .doNothing) ∧
    ((∀ c ∈ cols, c ∈ keys) → hasKey cols keys t (proj cols keys r) = true →
      execStmt cols keys (buildUpsertStmt cols keys) t [r] = t) ∧
    (df ≠ [] →
      (upsert_data cols keys datasetId st df).2.2 =
        [.execStmt (buildUpsertStmt cols keys)]) ∧
    Action.readTable ∉ (upsert_data cols keys datasetId st df).2.2 := by
  have hupd : (∃ c ∈ cols, c ∉ keys) →
      buildUpsertStmt cols keys =
        .doUpdate (cols.filter (fun c => !(keys.contains c))) := by
    rintro ⟨c, hc, hck⟩
    have hmem : c ∈ cols.filter (fun c => !(keys.contains c)) :=
      List.mem_filter.2 ⟨hc, by simpa using hck⟩
    have hne : ¬ (cols.filter (fun c => !(keys.contains c))).isEmpty = true := by
      intro habs
      rw [List.isEmpty_iff.1 habs] at hmem
      simp at hmem
    simp only [buildUpsertStmt]
    rw [if_neg hne]
  have hnothing : (∀ c ∈ cols, c ∈ keys) → buildUpsertStmt cols keys = .doNothing := by
    intro h
    have hfil : cols.filter (fun c => !(keys.contains c)) = [] := by
      rw [List.filter_eq_nil]
      intro c hc
      simpa using h c hc
    simp only [buildUpsertStmt, hfil]
    rfl
  refine ⟨hupd, ?_, hnothing, ?_, ?_, ?_⟩
  · intro hex hkey
    rw [hupd hex]
    simp [execStmt, execRow, hkey]
  · intro hall hkey
    rw [hnothing hall]
    simp [execStmt, execRow, hkey]
  · intro hne
    cases df with
    | nil => exact absurd rfl hne
    | cons x xs => simp [upsert_data]
  · cases df with
    | nil => simp [upsert_data]
    | cons x xs => simp [upsert_data]

/-- C5 witness: a three-column table keyed on (year, zip_code) with a
conflicting incoming row, and a two-column table fully covered by the
key set. -/
theorem C5_upsert_on_conflict_witness :
    buildUpsertStmt ["year", "zip_code", "income"] ["year", "zip_code"] =
      .doUpdate (["year", "zip_code", "income"].filter
        (fun c => !(["year", "zip_code"].contains c))) ∧
    execStmt ["year", "zip_code", "income"] ["year", "zip_code"]
        (buildUpsertStmt ["year", "zip_code", "income"] ["year", "zip_code"])
        [[.vnum 2023, .vstr "10001", .vnum 1]]
        [[.vnum 2023, .vstr "10001", .vnum 5]] =
      ([[.vnum 2023, .vstr "10001", .vnum 1]].map (fun row =>
        if proj ["year", "zip_code", "income"] ["year", "zip_code"] row =
            proj ["year", "zip_code", "income"] ["year", "zip_code"]
              [.vnum 2023, .vstr "10001", .vnum 5] then
          mergeRow ["year", "zip_code", "income"] ["year", "zip_code"] row
            [.vnum 2023, .vstr "10001", .vnum 5]
        else row)) ∧
    buildUpsertStmt ["year", "zip_code"] ["year", "zip_code"] = .doNothing ∧
    execStmt ["year", "zip_code"] ["year", "zip_code"]
        (buildUpsertStmt ["year", "zip_code"] ["year", "zip_code"])
        [[.vnum 2023, .vstr "10001"]] [[.vnum 2023, .vstr "10001"]] =
      [[.vnum 2023, .vstr "10001"]] ∧
    (upsert_data ["year", "zip_code", "income"] ["year", "zip_code"] "d" ⟨[], []⟩
        [[.vnum 2023, .vstr "10001", .vnum 5]]).2.2 =
      [.execStmt (buildUpsertStmt ["year", "zip_code", "income"] ["year", "zip_code"])] := by
  refine ⟨?_, ?_, ?_, ?_, ?_⟩
  · exact (C5_upsert_on_conflict ["year", "zip_code", "income"] ["year", "zip_code"]
      "d" ⟨[], []⟩ [] [] []).1 ⟨"income", by decide, by decide⟩
  · exact (C5_upsert_on_conflict ["year", "zip_code", "income"] ["year", "zip_code"]
      "d" ⟨[], []⟩ [] [[.vnum 2023, .vstr "10001", .vnum 1]]
      [.vnum 2023, .vstr "10001", .vnum 5]).2.1
      ⟨"income", by decide, by decide⟩ (by decide)
  · exact (C5_upsert_on_conflict ["year", "zip_code"] ["year", "zip_code"]
      "d" ⟨[], []⟩ [] [] []).2.2.1 (by intro c hc; exact hc)
  · exact (C5_upsert_on_conflict ["year", "zip_code"] ["year", "zip_code"]
      "d" ⟨[], []⟩ [] [[.vnum 2023, .vstr "10001"]]
      [.vnum 2023, .vstr "10001"]).2.2.2.1
      (by intro c hc; exact hc) (by decide)
  · exact (C5_upsert_on_conflict ["year", "zip_code", "income"] ["year", "zip_code"]
      "d" ⟨[], []⟩ [[.vnum 2023, .vstr "10001", .vnum 5]] [] []).2.2.2.2.1
      (by simp)

/-! ## Theorems: null normalization (`CensusACSTransformer.transform`) -/

/-- After `pd.to_numeric(errors='coerce')` and the negative mask, a
cell is either NaN or a non-negative number. -/
theorem cleanNum_cases (c : RawCell) :
    cleanNum c = .nan ∨ ∃ q, 0 ≤ q ∧ cleanNum c = .num q := by
  cases c with
  | unparseable => exact Or.inl rfl
  | parsedAs q =>
    by_cases h : q < 0
    · exact Or.inl (by simp [cleanNum, toNumeric, negClean, h])
    · exact Or.inr ⟨q, le_of_not_lt h, by simp [cleanNum, toNumeric, negClean, h]⟩

/-- The NaN-to-None replacement never returns NaN. -/
theorem replaceNanNull_ne_nan (v : FVal) : replaceNanNull v ≠ .nan := by
  by_cases h : v = .nan
  · simp [replaceNanNull, h]
  · simp [replaceNanNull, h]

/-- A numeric value surviving the NaN-to-None replacement was already
that number. -/
theorem replaceNanNull_num (v : FVal) (q : ℚ) :
    replaceNanNull v = .num q → v = .num q := by
  by_cases h : v = .nan
  · simp [replaceNanNull, h]
  · simp [replaceNanNull, h]

/-- The derived poverty rate of a cleaned count and universe is NaN,
+inf (division of a positive count by a zero universe), or a
non-negative number — never a negative sentinel. -/
theorem rateOf_cases (c u : FVal)
    (hc : c = .nan ∨ ∃ q, 0 ≤ q ∧ c = .num q)
    (hu : u = .nan ∨ ∃ q, 0 ≤ q ∧ u = .num q) :
    rateOf c u = .nan ∨ rateOf c u = .inf ∨
      ∃ q, 0 ≤ q ∧ rateOf c u = .num q := by
  rcases hc with rfl | ⟨a, ha, rfl⟩
  · refine Or.inl ?_
    rcases hu with rfl | ⟨b, hb, rfl⟩ <;> rfl
  rcases hu with rfl | ⟨b, hb, rfl⟩
  · exact Or.inl rfl
  by_cases hb0 : b = 0
  · by_cases ha0 : a = 0
    · exact Or.inl (by simp [rateOf, fdiv, hb0, ha0, fmul100, fround2])
    · have hapos : 0 < a := lt_of_le_of_ne ha (Ne.symm ha0)
      exact Or.inr (Or.inl (by simp [rateOf, fdiv, hb0, ha0, hapos, fmul100, fround2]))
  · refine Or.inr (Or.inr ⟨((round ((a / b * 100) * 100) : ℤ) : ℚ) / 100, ?_, ?_⟩)
    · have hdiv : (0:ℚ) ≤ a / b := div_nonneg ha hb
      have hmul : (0:ℚ) ≤ a / b * 100 * 100 := by positivity
      have hround : (0:ℤ) ≤ round (a / b * 100 * 100) := by
        rw [round_eq]
        exact Int.floor_nonneg.2 (by linarith)
      have : (0:ℚ) ≤ ((round (a / b * 100 * 100) : ℤ) : ℚ) := by
        exact_mod_cast hround
      positivity
    · simp [rateOf, fdiv, hb0, fmul100, fround2]

/-- Combination step: values that are NaN, +inf, or non-negative
numbers become, after the NaN-to-None replacement, values that are
never NaN and never negative. -/
theorem replaceNanNull_ok (v : FVal)
    (hv : v = .nan ∨ v = .inf ∨ ∃ q, 0 ≤ q ∧ v = .num q) :
    replaceNanNull v ≠ .nan ∧ ∀ q, replaceNanNull v = .num q → 0 ≤ q := by
  refine ⟨replaceNanNull_ne_nan v, ?_⟩
  intro q h
  have h2 := replaceNanNull_num v q h
  rcases hv with rfl | rfl | ⟨q', hq', hv⟩
  · simp at h2
  · simp at h2
  · rw [hv] at h2
    injection h2 with h3
    exact h3 ▸ hq'


/-- C9: after `CensusACSTransformer.transform`, no numeric column of
the canonical batch — median income, poverty universe, poverty count
or the derived poverty rate — contains a floating-point NaN marker or
a negative (sentinel) number; and a non-numeric cell or a negative
sentinel cell is mapped to the null sentinel (stored as NULL). -/
theorem C9_null_normalization (year : Int) (rows : List CRow) :
    (∀ o ∈ census_transform year rows,
      (o.income ≠ .nan ∧ ∀ q, o.income = .num q → 0 ≤ q) ∧
      (o.univ ≠ .nan ∧ ∀ q, o.univ = .num q → 0 ≤ q) ∧
      (o.count ≠ .nan ∧ ∀ q, o.count = .num q → 0 ≤ q) ∧
      (o.rate ≠ .nan ∧ ∀ q, o.rate = .num q → 0 ≤ q)) ∧
    (∀ q, q < 0 → replaceNanNull (cleanNum (.parsedAs q)) = .null) ∧
    replaceNanNull (cleanNum .unparseable) = .null := by
  refine ⟨?_, ?_, rfl⟩
  · intro o ho
    obtain ⟨r, _, rfl⟩ := List.mem_map.1 ho
    refine ⟨?_, ?_, ?_, ?_⟩
    · exact replaceNanNull_ok _ ((cleanNum_cases r.income).imp id Or.inr)
    · exact replaceNanNull_ok _ ((cleanNum_cases r.univ).imp id Or.inr)
    · exact replaceNanNull_ok _ ((cleanNum_cases r.count).imp id Or.inr)
    · exact replaceNanNull_ok _
        (rateOf_cases (cleanNum r.count) (cleanNum r.univ)
          (cleanNum_cases r.count) (cleanNum_cases r.univ))
  · intro q h
    simp [cleanNum, toNumeric, negClean, h, replaceNanNull]

/-- C9 witness: a batch with a suppressed-income sentinel, an
unparseable cell and a zero universe. -/
theorem C9_null_normalization_witness :
    (∀ o ∈ census_transform 2023
        [⟨"10001", .parsedAs (-666666666), .parsedAs 0, .parsedAs 5⟩,
         ⟨"10002", .unparseable, .parsedAs 100, .parsedAs 10⟩],
      (o.income ≠ .nan ∧ ∀ q, o.income = .num q → 0 ≤ q) ∧
      (o.univ ≠ .nan ∧ ∀ q, o.univ = .num q → 0 ≤ q) ∧
      (o.count ≠ .nan ∧ ∀ q, o.count = .num q → 0 ≤ q) ∧
      (o.rate ≠ .nan ∧ ∀ q, o.rate = .num q → 0 ≤ q)) ∧
    ((-666666666 : ℚ) < 0 →
      replaceNanNull (cleanNum (.parsedAs (-666666666))) = .null) := by
  constructor
  · exact (C9_null_normalization 2023
      [⟨"10001", .parsedAs (-666666666), .parsedAs 0, .parsedAs 5⟩,
       ⟨"10002", .unparseable, .parsedAs 100, .parsedAs 10⟩]).1
  · intro h
    exact (C9_null_normalization 2023 []).2.1 (-666666666) h

/-! ## Theorems: duplicate resolution (transform step) -/

/-- Unfolding: when a later row shares the head row's key, the head
is dropped. -/
theorem drop_duplicates_last_cons_pos {α κ : Type} [DecidableEq κ]
    (key : α → κ) (r : α) (rs : List α)
    (h : rs.any (fun y => decide (key y = key r)) = true) :
    drop_duplicates_last key (r :: rs) = drop_duplicates_last key rs := by
  rw [drop_duplicates_last, if_pos h]

/-- Unfolding: when no later row shares the head row's key, the head
is kept. -/
theorem drop_duplicates_last_cons_neg {α κ : Type} [DecidableEq κ]
    (key : α → κ) (r : α) (rs : List α)
    (h : ¬ rs.any (fun y => decide (key y = key r)) = true) :
    drop_duplicates_last key (r :: rs) = r :: drop_duplicates_last key rs := by
  rw [drop_duplicates_last, if_neg h]

/-- Every survivor of the last-wins deduplication was an input row. -/
theorem mem_of_mem_drop_duplicates_last {α κ : Type} [DecidableEq κ]
    (key : α → κ) :
    ∀ (rows : List α) (x : α), x ∈ drop_duplicates_last key rows → x ∈ rows := by
  intro rows
  induction rows with
  | nil => intro x hx; simp [drop_duplicates_last] at hx
  | cons r rs ih =>
    intro x hx
    by_cases h : rs.any (fun y => decide (key y = key r)) = true
    · rw [drop_duplicates_last_cons_pos key r rs h] at hx
      exact List.mem_cons_of_mem r (ih x hx)
    · rw [drop_duplicates_last_cons_neg key r rs h] at hx
      rcases List.mem_cons.1 hx with rfl | hx2
      · exact List.mem_cons_self x rs
      · exact List.mem_cons_of_mem r (ih x hx2)

/-- Auxiliary: dropping the head of a list does not change its last
element when the tail is non-empty. -/
theorem getLast?_cons_of_ne_nil {α : Type} (a : α) :
    ∀ l : List α, l ≠ [] → (a :: l).getLast? = l.getLast? := by
  intro l h
  cases l with
  | nil => exact absurd rfl h
  | cons b t => rfl

/-- C8 (counterexample): the claim quantifies over every dataset that
disallows duplicates, and the census dataset disallows duplicates on
(year, zip_code); but `CensusACSTransformer.transform` contains no
duplicate-resolution step, so on the spec's own scenario input — two
rows for (2023, "10001") with incomes 50000 then 52000 — both rows
survive the transform instead of exactly one. -/
theorem C8_counterexample :
    censusValidation.allow_duplicates = false ∧
    censusValidation.unique_keys = ["year", "zip_code"] ∧
    ((census_transform 2023
        [⟨"10001", .parsedAs 50000, .parsedAs 1000, .parsedAs 100⟩,
         ⟨"10001", .parsedAs 52000, .parsedAs 1000, .parsedAs 100⟩]).filter
      (fun o => decide (o.year = 2023 ∧ o.zip = "10001"))).length = 2 := by
  exact ⟨rfl, rfl, by decide⟩

/-- C8 (amended): the `food_supply_gap` transform resolves duplicate
keys with `drop_duplicates(keep='last')`: afterwards the key
projections are pairwise distinct (exactly one row per key), and the
surviving rows for any key are exactly the last-seen input occurrence
of that key (the higher input-order position); a batch deduplicated
this way realises the end-to-end scenario — with key (year, zip_code)
and two rows for (2023, "10001") carrying income 50000 then 52000,
the stored table holds exactly one row for that key, with income
52000.  The `census_acs` transform, however, performs no duplicate
resolution (see the counterexample). -/
theorem C8_last_wins {α κ : Type} [DecidableEq κ] (key : α → κ)
    (rows : List α) (k : κ) :
    ((drop_duplicates_last key rows).map key).Nodup ∧
    (drop_duplicates_last key rows).filter (fun r => decide (key r = k)) =
      ((rows.filter (fun r => decide (key r = k))).getLast?).toList ∧
    (upsert_data ["year", "zip_code", "income"] ["year", "zip_code"] "census_acs"
        ⟨[], []⟩
        (drop_duplicates_last
          (proj ["year", "zip_code", "income"] ["year", "zip_code"])
          [[.vnum 2023, .vstr "10001", .vnum 50000],
           [.vnum 2023, .vstr "10001", .vnum 52000]])).2.1.table =
      [[.vnum 2023, .vstr "10001", .vnum 52000]] := by
  refine ⟨?_, ?_, by decide⟩
  · induction rows with
    | nil => simp [drop_duplicates_last]
    | cons r rs ih =>
      by_cases h : rs.any (fun y => decide (key y = key r)) = true
      · rw [drop_duplicates_last_cons_pos key r rs h]
        exact ih
      · rw [drop_duplicates_last_cons_neg key r rs h]
        rw [List.map_cons, List.nodup_cons]
        refine ⟨?_, ih⟩
        intro hmem
        obtain ⟨x, hx, hxk⟩ := List.mem_map.1 hmem
        have hxrs := mem_of_mem_drop_duplicates_last key rs x hx
        exact absurd (List.any_eq_true.2 ⟨x, hxrs, by simp [hxk]⟩) h
  · induction rows with
    | nil => simp [drop_duplicates_last]
    | cons r rs ih =>
      by_cases h : rs.any (fun y => decide (key y = key r)) = true
      · rw [drop_duplicates_last_cons_pos key r rs h, List.filter_cons]
        by_cases hk : key r = k
        · obtain ⟨x, hx, hxk⟩ := List.any_eq_true.1 h
          have hxk2 : key x = k := by
            rw [of_decide_eq_true hxk, hk]
          have hmem : x ∈ rs.filter (fun r => decide (key r = k)) :=
            List.mem_filter.2 ⟨hx, by simp [hxk2]⟩
          have hne : rs.filter (fun r => decide (key r = k)) ≠ [] :=
            List.ne_nil_of_mem hmem
          rw [if_pos (by simp [hk]), ih, getLast?_cons_of_ne_nil _ _ hne]
        · rw [if_neg (by simp [hk])]
          exact ih
      · have hnone : ∀ l : List α, (∀ x ∈ l, x ∈ rs) → key r = k →
            l.filter (fun r => decide (key r = k)) = [] := by
          intro l hl hk
          rw [List.filter_eq_nil]
          intro x hx habs
          have hxk : key x = k := of_decide_eq_true habs
          exact absurd (List.any_eq_true.2 ⟨x, hl x hx, by simp [hxk, hk]⟩) h
        rw [drop_duplicates_last_cons_neg key r rs h, List.filter_cons,
          List.filter_cons]
        by_cases hk : key r = k
        · rw [if_pos (by simp [hk]), if_pos (by simp [hk]),
            hnone (drop_duplicates_last key rs)
              (fun x hx => mem_of_mem_drop_duplicates_last key rs x hx) hk,
            hnone rs (fun x hx => hx) hk]
          rfl
        · rw [if_neg (by simp [hk]), if_neg (by simp [hk])]
          exact ih

/-- C8 witness: last-wins deduplication evaluated on a concrete
three-row list with a repeated key. -/
theorem C8_last_wins_witness :
    ((drop_duplicates_last (fun r : Nat × String => r.2)
        [(1, "a"), (2, "b"), (3, "a")]).map (fun r : Nat × String => r.2)).Nodup ∧
    (drop_duplicates_last (fun r : Nat × String => r.2)
        [(1, "a"), (2, "b"), (3, "a")]).filter
        (fun r : Nat × String => decide (r.2 = "a")) =
      ((([(1, "a"), (2, "b"), (3, "a")] : List (Nat × String)).filter
        (fun r : Nat × String => decide (r.2 = "a"))).getLast?).toList ∧
    (upsert_data ["year", "zip_code", "income"] ["year", "zip_code"] "census_acs"
        ⟨[], []⟩
        (drop_duplicates_last
          (proj ["year", "zip_code", "income"] ["year", "zip_code"])
          [[.vnum 2023, .vstr "10001", .vnum 50000],
           [.vnum 2023, .vstr "10001", .vnum 52000]])).2.1.table =
      [[.vnum 2023, .vstr "10001", .vnum 52000]] :=
  C8_last_wins (fun r : Nat × String => r.2) [(1, "a"), (2, "b"), (3, "a")] "a"

/-! ## Theorems: upsert idempotence -/

/-- Unfolding: merging value-by-value over a cons. -/
theorem mergeRow_cons (cs ks : List String) (c : String) (a b : Value)
    (as bs : List Value) :
    mergeRow (c :: cs) ks (a :: as) (b :: bs) =
      (if c ∈ ks then a else b) :: mergeRow cs ks as bs := by
  simp [mergeRow]

/-- Unfolding: projecting over a cons. -/
theorem proj_cons (cs ks : List String) (c : String) (v : Value)
    (vs : List Value) :
    proj (c :: cs) ks (v :: vs) =
      if c ∈ ks then v :: proj cs ks vs else proj cs ks vs := by
  by_cases hc : c ∈ ks <;> simp [proj, hc]

/-- The update assignment applied twice with the same incoming row is
the update assignment applied once. -/
theorem mergeRow_idem (ks : List String) :
    ∀ (cols : List String) (x r : List Value),
      mergeRow cols ks (mergeRow cols ks x r) r = mergeRow cols ks x r := by
  intro cols
  induction cols with
  | nil => intro x r; rfl
  | cons c cs ih =>
    intro x r
    cases x with
    | nil => rfl
    | cons a as =>
      cases r with
      | nil => rfl
      | cons b bs =>
        rw [mergeRow_cons, mergeRow_cons]
        by_cases hc : c ∈ ks
        · simp [hc, ih]
        · simp [hc, ih]

/-- Merging a full-length row with itself changes nothing. -/
theorem mergeRow_self (ks : List String) :
    ∀ (cols : List String) (r : List Value), r.length = cols.length →
      mergeRow cols ks r r = r := by
  intro cols
  induction cols with
  | nil =>
    intro r h
    rw [List.length_nil, List.length_eq_zero] at h
    subst h
    rfl
  | cons c cs ih =>
    intro r h
    cases r with
    | nil => simp at h
    | cons a as =>
      rw [mergeRow_cons]
      by_cases hc : c ∈ ks <;>
        simp [hc, ih as (by simpa using h)]

/-- The update assignment keeps the length of full-length rows. -/
theorem mergeRow_length (ks : List String) :
    ∀ (cols : List String) (x r : List Value), x.length = cols.length →
      r.length = cols.length → (mergeRow cols ks x r).length = cols.length := by
  intro cols x r hx hr
  simp only [mergeRow, List.length_map, List.length_zip, hx, hr]
  omega

/-- The update assignment does not change the key projection of a
full-length row. -/
theorem proj_mergeRow (ks : List String) :
    ∀ (cols : List String) (x r : List Value), x.length = cols.length →
      r.length = cols.length →
      proj cols ks (mergeRow cols ks x r) = proj cols ks x := by
  intro cols
  induction cols with
  | nil =>
    intro x r hx _
    rw [List.length_nil, List.length_eq_zero] at hx
    subst hx
    rfl
  | cons c cs ih =>
    intro x r hx hr
    cases x with
    | nil => simp at hx
    | cons a as =>
      cases r with
      | nil => simp at hr
      | cons b bs =>
        rw [mergeRow_cons]
        by_cases hc : c ∈ ks
        · rw [if_pos hc, proj_cons, proj_cons, if_pos hc, if_pos hc,
            ih as bs (by simpa using hx) (by simpa using hr)]
        · rw [if_neg hc, proj_cons, proj_cons, if_neg hc, if_neg hc,
            ih as bs (by simpa using hx) (by simpa using hr)]

/-- Conflict detection is existence of a stored row with the same key
projection. -/
theorem hasKey_iff (cols ks : List String) (t : List (List Value))
    (k : List Value) :
    hasKey cols ks t k = true ↔ ∃ row ∈ t, proj cols ks row = k := by
  simp [hasKey, List.any_eq_true]

/-- On a conflict, `DO UPDATE` rewrites exactly the conflicting
rows. -/
theorem execRow_conflict_update (cols ks u : List String)
    (t : List (List Value)) (r : List Value)
    (h : hasKey cols ks t (proj cols ks r) = true) :
    execRow cols ks (.doUpdate u) t r =
      t.map (fun row =>
        if proj cols ks row = proj cols ks r then mergeRow cols ks row r
        else row) := by
  simp [execRow, h]

/-- On a conflict, `DO NOTHING` leaves the table unchanged. -/
theorem execRow_conflict_nothing (cols ks : List String)
    (t : List (List Value)) (r : List Value)
    (h : hasKey cols ks t (proj cols ks r) = true) :
    execRow cols ks .doNothing t r = t := by
  simp [execRow, h]

/-- With no conflict, the incoming row is inserted. -/
theorem execRow_fresh (cols ks : List String) (s : Stmt)
    (t : List (List Value)) (r : List Value)
    (h : hasKey cols ks t (proj cols ks r) = false) :
    execRow cols ks s t r = t ++ [r] := by
  simp [execRow, h]

/-- Executing one `VALUES` row preserves full-length rows. -/
theorem execRow_wf (cols ks : List String) (s : Stmt)
    (t : List (List Value)) (r : List Value)
    (hwt : ∀ row ∈ t, row.length = cols.length)
    (hr : r.length = cols.length) :
    ∀ row ∈ execRow cols ks s t r, row.length = cols.length := by
  intro row hrow
  by_cases hk : hasKey cols ks t (proj cols ks r) = true
  · cases s with
    | doUpdate u =>
      rw [execRow_conflict_update cols ks u t r hk] at hrow
      obtain ⟨x, hx, rfl⟩ := List.mem_map.1 hrow
      by_cases hpx : proj cols ks x = proj cols ks r
      · rw [if_pos hpx]
        exact mergeRow_length ks cols x r (hwt x hx) hr
      · rw [if_neg hpx]
        exact hwt x hx
    | doNothing =>
      rw [execRow_conflict_nothing cols ks t r hk] at hrow
      exact hwt row hrow
  · have hk' : hasKey cols ks t (proj cols ks r) = false := by simpa using hk
    rw [execRow_fresh cols ks s t r hk'] at hrow
    rcases List.mem_append.1 hrow with h1 | h1
    · exact hwt row h1
    · rw [List.mem_singleton.1 h1]
      exact hr

/-- Executing a whole statement preserves full-length rows. -/
theorem execStmt_wf (cols ks : List String) (s : Stmt) :
    ∀ (b : List (List Value)) (t : List (List Value)),
      (∀ row ∈ t, row.length = cols.length) →
      (∀ r ∈ b, r.length = cols.length) →
      ∀ row ∈ execStmt cols ks s t b, row.length = cols.length := by
  intro b
  induction b with
  | nil => intro t hwt _ row hrow; exact hwt row hrow
  | cons r bs ih =>
    intro t hwt hwb row hrow
    simp only [execStmt, List.foldl_cons] at hrow
    exact ih (execRow cols ks s t r)
      (execRow_wf cols ks s t r hwt (hwb r (by simp)))
      (fun x hx => hwb x (by simp [hx]))
      row hrow

/-- Executing one row never removes an existing key from the table. -/
theorem hasKey_execRow_mono (cols ks : List String) (s : Stmt)
    (t : List (List Value)) (r : List Value) (k : List Value)
    (hk : hasKey cols ks t k = true)
    (hwt : ∀ row ∈ t, row.length = cols.length)
    (hr : r.length = cols.length) :
    hasKey cols ks (execRow cols ks s t r) k = true := by
  obtain ⟨row, hrow, hproj⟩ := (hasKey_iff cols ks t k).1 hk
  by_cases hc : hasKey cols ks t (proj cols ks r) = true
  · cases s with
    | doUpdate u =>
      rw [execRow_conflict_update cols ks u t r hc]
      refine (hasKey_iff _ _ _ _).2 ⟨_, List.mem_map_of_mem _ hrow, ?_⟩
      by_cases hpx : proj cols ks row = proj cols ks r
      · rw [if_pos hpx, proj_mergeRow ks cols row r (hwt row hrow) hr, hproj]
      · rw [if_neg hpx, hproj]
    | doNothing =>
      rw [execRow_conflict_nothing cols ks t r hc]
      exact hk
  · have hc' : hasKey cols ks t (proj cols ks r) = false := by simpa using hc
    rw [execRow_fresh cols ks s t r hc']
    exact (hasKey_iff _ _ _ _).2 ⟨row, List.mem_append_left _ hrow, hproj⟩

/-- After one row is executed its key is present in the table. -/
theorem hasKey_execRow_self (cols ks : List String) (s : Stmt)
    (t : List (List Value)) (r : List Value)
    (hwt : ∀ row ∈ t, row.length = cols.length)
    (hr : r.length = cols.length) :
    hasKey cols ks (execRow cols ks s t r) (proj cols ks r) = true := by
  by_cases hc : hasKey cols ks t (proj cols ks r) = true
  · cases s with
    | doUpdate u =>
      obtain ⟨row, hrow, hproj⟩ := (hasKey_iff cols ks t _).1 hc
      rw [execRow_conflict_update cols ks u t r hc]
      refine (hasKey_iff _ _ _ _).2 ⟨_, List.mem_map_of_mem _ hrow, ?_⟩
      rw [if_pos hproj, proj_mergeRow ks cols row r (hwt row hrow) hr, hproj]
    | doNothing =>
      rw [execRow_conflict_nothing cols ks t r hc]
      exact hc
  · have hc' : hasKey cols ks t (proj cols ks r) = false := by simpa using hc
    rw [execRow_fresh cols ks s t r hc']
    exact (hasKey_iff _ _ _ _).2 ⟨r, by simp, rfl⟩

/-- Executing a statement never removes an existing key. -/
theorem hasKey_execStmt_mono (cols ks : List String) (s : Stmt) :
    ∀ (b : List (List Value)) (t : List (List Value)) (k : List Value),
      hasKey cols ks t k = true →
      (∀ row ∈ t, row.length = cols.length) →
      (∀ r ∈ b, r.length = cols.length) →
      hasKey cols ks (execStmt cols ks s t b) k = true := by
  intro b
  induction b with
  | nil => intro t k hk _ _; exact hk
  | cons r bs ih =>
    intro t k hk hwt hwb
    simp only [execStmt, List.foldl_cons]
    exact ih (execRow cols ks s t r) k
      (hasKey_execRow_mono cols ks s t r k hk hwt (hwb r (by simp)))
      (execRow_wf cols ks s t r hwt (hwb r (by simp)))
      (fun x hx => hwb x (by simp [hx]))

/-- After a statement executes, the key of every `VALUES` row is
present in the table. -/
theorem hasKey_execStmt_self (cols ks : List String) (s : Stmt) :
    ∀ (b : List (List Value)) (t : List (List Value)),
      (∀ row ∈ t, row.length = cols.length) →
      (∀ r ∈ b, r.length = cols.length) →
      ∀ r ∈ b, hasKey cols ks (execStmt cols ks s t b) (proj cols ks r) = true := by
  intro b
  induction b with
  | nil => intro t _ _ r hr; simp at hr
  | cons r0 bs ih =>
    intro t hwt hwb r hr
    simp only [execStmt, List.foldl_cons]
    rcases List.mem_cons.1 hr with rfl | hr2
    · exact hasKey_execStmt_mono cols ks s bs (execRow cols ks s t r) _
        (hasKey_execRow_self cols ks s t r hwt (hwb r (by simp)))
        (execRow_wf cols ks s t r hwt (hwb r (by simp)))
        (fun x hx => hwb x (by simp [hx]))
    · exact ih (execRow cols ks s t r0)
        (execRow_wf cols ks s t r0 hwt (hwb r0 (by simp)))
        (fun x hx => hwb x (by simp [hx])) r hr2

/-- After executing a `DO UPDATE` row, every stored row with that key
already carries the incoming non-key values (merging again changes
nothing). -/
theorem merged_execRow_self (cols ks u : List String)
    (t : List (List Value)) (r : List Value)
    (hwt : ∀ row ∈ t, row.length = cols.length)
    (hr : r.length = cols.length) :
    ∀ row ∈ execRow cols ks (.doUpdate u) t r,
      proj cols ks row = proj cols ks r → mergeRow cols ks row r = row := by
  intro row hrow hproj
  by_cases hc : hasKey cols ks t (proj cols ks r) = true
  · rw [execRow_conflict_update cols ks u t r hc] at hrow
    obtain ⟨x, hx, rfl⟩ := List.mem_map.1 hrow
    by_cases hpx : proj cols ks x = proj cols ks r
    · rw [if_pos hpx]
      exact mergeRow_idem ks cols x r
    · rw [if_neg hpx] at hproj
      exact absurd hproj hpx
  · have hc' : hasKey cols ks t (proj cols ks r) = false := by simpa using hc
    rw [execRow_fresh cols ks _ t r hc'] at hrow
    rcases List.mem_append.1 hrow with h1 | h1
    · exact absurd ((hasKey_iff cols ks t _).2 ⟨row, h1, hproj⟩) hc
    · rw [List.mem_singleton.1 h1]
      exact mergeRow_self ks cols r hr

/-- Executing a `DO UPDATE` row with a different key preserves the
merged-stability of rows keyed like `r`. -/
theorem merged_execRow_pres (cols ks u : List String)
    (t : List (List Value)) (r r' : List Value)
    (hP : ∀ row ∈ t, proj cols ks row = proj cols ks r →
      mergeRow cols ks row r = row)
    (hne : proj cols ks r' ≠ proj cols ks r)
    (hwt : ∀ row ∈ t, row.length = cols.length)
    (hr' : r'.length = cols.length) :
    ∀ row ∈ execRow cols ks (.doUpdate u) t r',
      proj cols ks row = proj cols ks r → mergeRow cols ks row r = row := by
  intro row hrow hproj
  by_cases hc : hasKey cols ks t (proj cols ks r') = true
  · rw [execRow_conflict_update cols ks u t r' hc] at hrow
    obtain ⟨x, hx, rfl⟩ := List.mem_map.1 hrow
    by_cases hpx : proj cols ks x = proj cols ks r'
    · rw [if_pos hpx] at hproj ⊢
      rw [proj_mergeRow ks cols x r' (hwt x hx) hr', hpx] at hproj
      exact absurd hproj hne
    · rw [if_neg hpx] at hproj ⊢
      exact hP x hx hproj
  · have hc' : hasKey cols ks t (proj cols ks r') = false := by simpa using hc
    rw [execRow_fresh cols ks _ t r' hc'] at hrow
    rcases List.mem_append.1 hrow with h1 | h1
    · exact hP row h1 hproj
    · rw [List.mem_singleton.1 h1] at hproj ⊢
      exact absurd hproj hne

/-- Executing `DO UPDATE` rows whose keys all differ from `r`'s
preserves the merged-stability of rows keyed like `r`. -/
theorem merged_execStmt_pres (cols ks u : List String) (r : List Value) :
    ∀ (b : List (List Value)) (t : List (List Value)),
      (∀ row ∈ t, proj cols ks row = proj cols ks r →
        mergeRow cols ks row r = row) →
      (∀ r' ∈ b, proj cols ks r' ≠ proj cols ks r) →
      (∀ row ∈ t, row.length = cols.length) →
      (∀ x ∈ b, x.length = cols.length) →
      ∀ row ∈ execStmt cols ks (.doUpdate u) t b,
        proj cols ks row = proj cols ks r → mergeRow cols ks row r = row := by
  intro b
  induction b with
  | nil => intro t hP _ _ _ row hrow; exact hP row hrow
  | cons r0 bs ih =>
    intro t hP hne hwt hwb
    simp only [execStmt, List.foldl_cons]
    exact ih (execRow cols ks (.doUpdate u) t r0)
      (merged_execRow_pres cols ks u t r r0 hP (hne r0 (by simp)) hwt
        (hwb r0 (by simp)))
      (fun x hx => hne x (by simp [hx]))
      (execRow_wf cols ks _ t r0 hwt (hwb r0 (by simp)))
      (fun x hx => hwb x (by simp [hx]))

/-- After a `DO UPDATE` statement over a batch with pairwise-distinct
keys, every stored row keyed like a batch row carries that batch
row's non-key values. -/
theorem merged_execStmt_self (cols ks u : List String) :
    ∀ (b : List (List Value)) (t : List (List Value)),
      (∀ row ∈ t, row.length = cols.length) →
      (∀ x ∈ b, x.length = cols.length) →
      b.Pairwise (fun x y => proj cols ks x ≠ proj cols ks y) →
      ∀ r ∈ b, ∀ row ∈ execStmt cols ks (.doUpdate u) t b,
        proj cols ks row = proj cols ks r → mergeRow cols ks row r = row := by
  intro b
  induction b with
  | nil => intro t _ _ _ r hr; simp at hr
  | cons r0 bs ih =>
    intro t hwt hwb hpair r hr
    have hpair2 := List.pairwise_cons.1 hpair
    simp only [execStmt, List.foldl_cons]
    rcases List.mem_cons.1 hr with rfl | hr2
    · exact merged_execStmt_pres cols ks u r bs (execRow cols ks (.doUpdate u) t r)
        (merged_execRow_self cols ks u t r hwt (hwb r (by simp)))
        (fun r' hr' => (hpair2.1 r' hr').symm)
        (execRow_wf cols ks _ t r hwt (hwb r (by simp)))
        (fun x hx => hwb x (by simp [hx]))
    · exact ih (execRow cols ks (.doUpdate u) t r0)
        (execRow_wf cols ks _ t r0 hwt (hwb r0 (by simp)))
        (fun x hx => hwb x (by simp [hx]))
        hpair2.2 r hr2

/-- A `DO UPDATE` statement is a table-level no-op when every batch
key is present and every matching stored row already carries the
incoming values. -/
theorem execStmt_noop_update (cols ks u : List String) :
    ∀ (b : List (List Value)) (t : List (List Value)),
      (∀ r ∈ b, hasKey cols ks t (proj cols ks r) = true ∧
        ∀ row ∈ t, proj cols ks row = proj cols ks r →
          mergeRow cols ks row r = row) →
      execStmt cols ks (.doUpdate u) t b = t := by
  intro b
  induction b with
  | nil => intro t _; rfl
  | cons r bs ih =>
    intro t h
    have hstep : execRow cols ks (.doUpdate u) t r = t := by
      rw [execRow_conflict_update cols ks u t r (h r (by simp)).1]
      have hcong : t.map (fun row =>
          if proj cols ks row = proj cols ks r then mergeRow cols ks row r
          else row) = t.map id := by
        refine List.map_congr_left ?_
        intro x hx
        by_cases hpx : proj cols ks x = proj cols ks r
        · rw [if_pos hpx]
          exact (h r (by simp)).2 x hx hpx
        · rw [if_neg hpx]
          rfl
      rw [hcong, List.map_id]
    simp only [execStmt, List.foldl_cons, hstep]
    exact ih t (fun x hx => h x (by simp [hx]))

/-- A `DO NOTHING` statement is a table-level no-op when every batch
key is already present. -/
theorem execStmt_noop_nothing (cols ks : List String) :
    ∀ (b : List (List Value)) (t : List (List Value)),
      (∀ r ∈ b, hasKey cols ks t (proj cols ks r) = true) →
      execStmt cols ks .doNothing t b = t := by
  intro b
  induction b with
  | nil => intro t _; rfl
  | cons r bs ih =>
    intro t h
    have hstep : execRow cols ks .doNothing t r = t :=
      execRow_conflict_nothing cols ks t r (h r (by simp))
    simp only [execStmt, List.foldl_cons, hstep]
    exact ih t (fun x hx => h x (by simp [hx]))

/-- Re-upserting the same ledger row is a no-op on the ledger. -/
theorem update_metadata_idem (ledger : Ledger) (datasetId : String) (n : Nat) :
    update_metadata (update_metadata ledger datasetId n) datasetId n =
      update_metadata ledger datasetId n := by
  by_cases h : ledger.any (fun e => e.1 = datasetId) = true
  · obtain ⟨e, he, hid⟩ := List.any_eq_true.1 h
    have hid' : e.1 = datasetId := of_decide_eq_true hid
    have h1 : update_metadata ledger datasetId n =
        ledger.map (fun e => if e.1 = datasetId then (datasetId, n, "success") else e) := by
      rw [update_metadata, if_pos h]
    have h2 : (update_metadata ledger datasetId n).any
        (fun e => e.1 = datasetId) = true := by
      rw [h1]
      refine List.any_eq_true.2 ⟨_, List.mem_map_of_mem _ he, ?_⟩
      rw [if_pos hid']
      simp
    rw [update_metadata, if_pos h2, h1, List.map_map]
    refine List.map_congr_left ?_
    intro x _
    by_cases hx : x.1 = datasetId
    · simp [Function.comp, hx]
    · simp [Function.comp, hx]
  · have hall : ∀ e ∈ ledger, ¬ e.1 = datasetId := by
      intro e he habs
      exact h (List.any_eq_true.2 ⟨e, he, by simp [habs]⟩)
    have h1 : update_metadata ledger datasetId n =
        ledger ++ [(datasetId, n, "success")] := by
      rw [update_metadata, if_neg h]
    have h2 : (update_metadata ledger datasetId n).any
        (fun e => e.1 = datasetId) = true := by
      rw [h1]
      exact List.any_eq_true.2 ⟨(datasetId, n, "success"), by simp, by simp⟩
    rw [update_metadata, if_pos h2, h1]
    have hcong : (ledger ++ [(datasetId, n, "success")]).map
        (fun e => if e.1 = datasetId then (datasetId, n, "success") else e) =
        (ledger ++ [(datasetId, n, "success")]).map id := by
      refine List.map_congr_left ?_
      intro x hx
      rcases List.mem_append.1 hx with h3 | h3
      · rw [if_neg (hall x h3)]
        rfl
      · rw [List.mem_singleton.1 h3]
        simp
    rw [hcong, List.map_id]

/-- C6: upserting the same canonical batch twice — rows of the
declared column arity with pairwise-distinct unique-key projections —
leaves exactly the database state of upserting it once: the same
stored rows (hence the same row count and contents) and the same
metadata ledger. -/
theorem C6_upsert_idempotent (cols keys : List String) (datasetId : String)
    (st : IngestState) (b : List (List Value))
    (hwt : ∀ row ∈ st.table, row.length = cols.length)
    (hwb : ∀ r ∈ b, r.length = cols.length)
    (hkeys : b.Pairwise (fun x y => proj cols keys x ≠ proj cols keys y)) :
    (upsert_data cols keys datasetId
        ((upsert_data cols keys datasetId st b).2.1) b).2.1 =
      (upsert_data cols keys datasetId st b).2.1 := by
  cases b with
  | nil => rfl
  | cons r0 bs =>
    set b := r0 :: bs with hb
    have hbne : b.isEmpty = false := by rw [hb]; rfl
    have hstate : (upsert_data cols keys datasetId st b).2.1 =
        ⟨execStmt cols keys (buildUpsertStmt cols keys) st.table b,
          update_metadata st.ledger datasetId b.length⟩ := by
      rw [upsert_data, hbne]
      rfl
    have hstate2 : ∀ st2 : IngestState,
        (upsert_data cols keys datasetId st2 b).2.1 =
        ⟨execStmt cols keys (buildUpsertStmt cols keys) st2.table b,
          update_metadata st2.ledger datasetId b.length⟩ := by
      intro st2
      rw [upsert_data, hbne]
      rfl
    rw [hstate, hstate2]
    have htable : execStmt cols keys (buildUpsertStmt cols keys)
        (execStmt cols keys (buildUpsertStmt cols keys) st.table b) b =
        execStmt cols keys (buildUpsertStmt cols keys) st.table b := by
      cases hstmt : buildUpsertStmt cols keys with
      | doUpdate u =>
        refine execStmt_noop_update cols keys u b _ ?_
        intro r hr
        constructor
        · exact hasKey_execStmt_self cols keys (.doUpdate u) b st.table hwt hwb r hr
        · exact merged_execStmt_self cols keys u b st.table hwt hwb hkeys r hr
      | doNothing =>
        refine execStmt_noop_nothing cols keys b _ ?_
        intro r hr
        exact hasKey_execStmt_self cols keys .doNothing b st.table hwt hwb r hr
    rw [htable, update_metadata_idem]

/-- C6 witness: a concrete two-row batch upserted twice over a table
already holding a conflicting row. -/
theorem C6_upsert_idempotent_witness :
    (upsert_data ["year", "zip_code", "income"] ["year", "zip_code"] "census_acs"
        ((upsert_data ["year", "zip_code", "income"] ["year", "zip_code"]
          "census_acs"
          ⟨[[.vnum 2023, .vstr "10001", .vnum 7]], []⟩
          [[.vnum 2023, .vstr "10001", .vnum 52000],
           [.vnum 2023, .vstr "10002", .vnum 1]]).2.1)
        [[.vnum 2023, .vstr "10001", .vnum 52000],
         [.vnum 2023, .vstr "10002", .vnum 1]]).2.1 =
      (upsert_data ["year", "zip_code", "income"] ["year", "zip_code"] "census_acs"
        ⟨[[.vnum 2023, .vstr "10001", .vnum 7]], []⟩
        [[.vnum 2023, .vstr "10001", .vnum 52000],
         [.vnum 2023, .vstr "10002", .vnum 1]]).2.1 :=
  C6_upsert_idempotent ["year", "zip_code", "income"] ["year", "zip_code"]
    "census_acs" ⟨[[.vnum 2023, .vstr "10001", .vnum 7]], []⟩
    [[.vnum 2023, .vstr "10001", .vnum 52000],
     [.vnum 2023, .vstr "10002", .vnum 1]]
    (by intro row hrow; simp at hrow; simp [hrow])
    (by intro r hr; simp at hr; rcases hr with h | h <;> simp [h])
    (by decide)

end PovertyNYC
